import Mathlib

/-!
Verification of the Arixa license manager (`LicenseGenerator`, the Arixa
variant of the class in `install.sh`, together with `importJSON` from the
first variant of the class).

The JavaScript object `this.licenses` (string-keyed, insertion-ordered) is
embedded as an association list `List (String × License)`; property read,
assignment and `delete` are `objGet`, `objSet` and `objDelete`.  The
browser `localStorage` slot written by `saveToStorage` is modelled as an
`Option Store` snapshot (the `JSON.stringify`/`JSON.parse` round trip is
the identity on the stored data).  Wall-clock time (`new Date()`) and the
randomly derived key of `generateKey` are nondeterministic inputs, passed
to each operation as explicit `nowMs : Nat` (milliseconds since the epoch,
UTC) and `key : String` oracle arguments.
-/

set_option autoImplicit false

namespace Arixa

/-- The `metadata` object built by `generate`: `{ userType, product }`. -/
structure Metadata where
  userType : String
  product : String
deriving DecidableEq

/-- A stored license record, as built by `generate`.  `createdAt` and
`expiresAt` are ISO timestamps in the source, modelled as epoch
milliseconds; `expiresAt = none` is the JavaScript `null` of permanent
licenses. -/
structure License where
  key : String
  createdAt : Nat
  expiresAt : Option Nat
  duration : Nat
  durationUnit : String
  isPermanent : Bool
  metadata : Metadata
deriving DecidableEq

/-- The in-memory store `this.licenses`: a string-keyed object kept in
insertion order. -/
abbrev Store := List (String × License)

/-- Property read `obj[k]`: the value at the first matching key. -/
def objGet : Store → String → Option License
  | [], _ => none
  | (k', v) :: t, k => if k = k' then some v else objGet t k

/-- Truthiness test `if (obj[k])` (a stored license object is always
truthy). -/
def containsKey (s : Store) (k : String) : Bool :=
  (objGet s k).isSome

/-- Property assignment `obj[k] = v`: updates the value in place when the
key exists, otherwise appends the new entry. -/
def objSet : Store → String → License → Store
  | [], k, v => [(k, v)]
  | (k', v') :: t, k, v =>
    if k = k' then (k', v) :: t else (k', v') :: objSet t k v

/-- Property removal `delete obj[k]`. -/
def objDelete : Store → String → Store
  | [], _ => []
  | (k', v') :: t, k =>
    if k = k' then objDelete t k else (k', v') :: objDelete t k

/-- `Object.values(obj)`, in insertion order. -/
def objValues (s : Store) : List License :=
  (s : List (String × License)).map Prod.snd

/-- The spread merge `{ ...s, ...d }`: every entry of `d`, in order,
assigned over `s`. -/
def mergeObj (s : Store) (d : Store) : Store :=
  (d : List (String × License)).foldl (fun acc p => objSet acc p.1 p.2) s

/-- Instance state: the in-memory store plus the `localStorage` slot
keyed by `storageKey` (none = nothing persisted yet). -/
structure MState where
  licenses : Store
  storage : Option Store
deriving DecidableEq

/-- `saveToStorage()`: persists the current store. -/
def saveToStorage (s : MState) : MState :=
  { s with storage := some s.licenses }

/-- A fresh instance over an empty `localStorage`: `loadFromStorage`
returns `{}`. -/
def initState : MState := ⟨[], none⟩

theorem objGet_objSet (s : Store) (k : String) (v : License) (k' : String) :
    objGet (objSet s k v) k' = if k' = k then some v else objGet s k' := by
  induction s with
  | nil =>
    by_cases h : k' = k <;> simp [objSet, objGet, h]
  | cons p t ih =>
    obtain ⟨k₁, v₁⟩ := p
    by_cases h1 : k = k₁
    · subst h1
      by_cases h2 : k' = k <;> simp [objSet, objGet, h2]
    · by_cases h2 : k' = k₁
      · subst h2
        simp [objSet, objGet, h1, Ne.symm h1]
      · simp [objSet, objGet, h1, h2, ih]

theorem objGet_objDelete (s : Store) (k k' : String) :
    objGet (objDelete s k) k' = if k' = k then none else objGet s k' := by
  induction s with
  | nil => simp [objDelete, objGet]
  | cons p t ih =>
    obtain ⟨k₁, v₁⟩ := p
    by_cases h1 : k = k₁
    · subst h1
      by_cases h2 : k' = k
      · subst h2
        simp [objDelete, ih]
      · simp [objDelete, objGet, h2, ih, Ne.symm h2]
    · by_cases h2 : k' = k₁
      · subst h2
        simp [objDelete, objGet, h1, Ne.symm h1]
      · simp [objDelete, objGet, h1, h2, ih]

/-! ### Date arithmetic

`calculateExpiry` uses JavaScript `Date` arithmetic.  The `days` case is
plain millisecond addition; the `months` and `years` cases go through
`setMonth`/`setFullYear`, whose ECMAScript semantics is `MakeDay` over the
proleptic Gregorian calendar with free day/month overflow.  The civil
conversions below are the standard era-based algorithms; the embedding
works in UTC (the host time-zone offset of `Date` is environment state
outside the program). -/

/-- Days since 1970-01-01 of the civil date `y-m-d` (`m` in 1..12, `d`
may overflow the month, as `MakeDay` allows). -/
def daysFromCivil (y m d : Int) : Int :=
  let y' := if m ≤ 2 then y - 1 else y
  let era := Int.fdiv y' 400
  let yoe := y' - era * 400
  let mp := Int.fmod (m + 9) 12
  let doy := Int.fdiv (153 * mp + 2) 5 + d - 1
  let doe := yoe * 365 + Int.fdiv yoe 4 - Int.fdiv yoe 100 + doy
  era * 146097 + doe - 719468

/-- Civil date `(y, m, d)` of a count of days since 1970-01-01. -/
def civilFromDays (z0 : Int) : Int × Int × Int :=
  let z := z0 + 719468
  let era := Int.fdiv z 146097
  let doe := z - era * 146097
  let yoe :=
    Int.fdiv (doe - Int.fdiv doe 1460 + Int.fdiv doe 36524 - Int.fdiv doe 146096) 365
  let y := yoe + era * 400
  let doy := doe - (365 * yoe + Int.fdiv yoe 4 - Int.fdiv yoe 100)
  let mp := Int.fdiv (5 * doy + 2) 153
  let d := doy - Int.fdiv (153 * mp + 2) 5 + 1
  let m := mp + (if mp < 10 then 3 else -9)
  (if m ≤ 2 then y + 1 else y, m, d)

/-- `now.setMonth(now.getMonth() + k)` on a time in epoch milliseconds. -/
def addMonthsMs (nowMs : Nat) (k : Nat) : Int :=
  let day := Int.fdiv (nowMs : Int) 86400000
  let msOfDay := Int.fmod (nowMs : Int) 86400000
  let c := civilFromDays day
  let mi := (c.2.1 - 1) + (k : Int)
  daysFromCivil (c.1 + Int.fdiv mi 12) (Int.fmod mi 12 + 1) c.2.2 * 86400000 + msOfDay

/-- `now.setFullYear(now.getFullYear() + k)` on a time in epoch
milliseconds. -/
def addYearsMs (nowMs : Nat) (k : Nat) : Int :=
  let day := Int.fdiv (nowMs : Int) 86400000
  let msOfDay := Int.fmod (nowMs : Int) 86400000
  let c := civilFromDays day
  daysFromCivil (c.1 + (k : Int)) c.2.1 c.2.2 * 86400000 + msOfDay

/-- `calculateExpiry(duration, unit)`: `none` for `permanent`, otherwise
the computed expiry time in epoch milliseconds. -/
def calculateExpiry (duration : Nat) (unit : String) (nowMs : Nat) : Option Nat :=
  if unit = "permanent" then none
  else if unit = "days" then some (nowMs + duration * 86400000)
  else if unit = "months" then some (addMonthsMs nowMs duration).toNat
  else if unit = "years" then some (addYearsMs nowMs duration).toNat
  else some (nowMs + duration * 86400000)

/-! ### The class operations -/

/-- The `options` record consumed by `generate` (destructuring defaults
already applied by the caller). -/
structure GenOptions where
  format : String
  duration : Nat
  durationUnit : String
  userType : String
  product : String
deriving DecidableEq

/-- The default `options` of `generate`. -/
def defaultGenOptions : GenOptions :=
  ⟨"serial", 30, "days", "用户", "Arixa"⟩

/-- `generate(options)`: builds the license record, stores it at its key,
persists, and returns it.  `nowMs` is `new Date()` and `key` the
(random) result of `generateKey`. -/
def generateS (s : MState) (o : GenOptions) (nowMs : Nat) (key : String) :
    License × MState :=
  let expiresAt := calculateExpiry o.duration o.durationUnit nowMs
  let isPermanent := o.durationUnit = "permanent"
  let license : License :=
    { key := key
      createdAt := nowMs
      expiresAt := if isPermanent then none else expiresAt
      duration := if isPermanent then 0 else o.duration
      durationUnit := o.durationUnit
      isPermanent := isPermanent
      metadata := ⟨o.userType, o.product⟩ }
  (license, saveToStorage { s with licenses := objSet s.licenses key license })

/-- `generateBatch(count, options)`: `count` sequential calls of
`generate`, each with its own time/key oracle pair. -/
def generateBatchS (s : MState) (o : GenOptions) :
    List (Nat × String) → List License × MState
  | [] => ([], s)
  | (nowMs, key) :: rest =>
    let r := generateS s o nowMs key
    let rr := generateBatchS r.2 o rest
    (r.1 :: rr.1, rr.2)

/-- The result object of `verify` (absent JavaScript fields are `none`). -/
structure VerifyResult where
  valid : Bool
  reason : String
  license : Option License
  daysRemaining : Option Nat
  isPermanentFlag : Option Bool
deriving DecidableEq

/-- `new Date(license.expiresAt).getTime()`: `new Date(null)` is the
epoch, hence `getD 0`. -/
def expiryMs (l : License) : Nat :=
  l.expiresAt.getD 0

/-- `verify(key)` on the raw store. -/
def verify (st : Store) (key : String) (nowMs : Nat) : VerifyResult :=
  match objGet st key with
  | none => ⟨false, "许可证不存在", none, none, none⟩
  | some license =>
    if license.isPermanent then
      ⟨true, "许可证永久有效", some license, none, some true⟩
    else if nowMs > expiryMs license then
      ⟨false, "许可证已过期", some license, none, none⟩
    else
      ⟨true, "许可证有效", some license,
        some ((expiryMs license - nowMs + 86399999) / 86400000), none⟩

/-- `verify` as a method: its body reads `this.licenses` and never writes
state or storage. -/
def verifyS (s : MState) (key : String) (nowMs : Nat) : VerifyResult × MState :=
  (verify s.licenses key nowMs, s)

/-- `get(key)`: `this.licenses[key] || null`. -/
def getS (s : MState) (key : String) : Option License × MState :=
  (objGet s.licenses key, s)

/-- `getAll()`: `Object.values(this.licenses)`. -/
def getAllS (s : MState) : List License × MState :=
  (objValues s.licenses, s)

/-- `revoke(key)`: deletes and persists when present, else reports
`false`. -/
def revokeS (s : MState) (key : String) : Bool × MState :=
  if containsKey s.licenses key then
    (true, saveToStorage { s with licenses := objDelete s.licenses key })
  else
    (false, s)

/-- `clearAll()`: resets the store and persists. -/
def clearAllS (s : MState) : MState :=
  saveToStorage { s with licenses := [] }

/-- The record returned by `getStats()`. -/
structure Stats where
  total : Nat
  valid : Nat
  expired : Nat
  permanent : Nat
deriving DecidableEq

/-- One step of the `forEach` of `getStats`, over the accumulator
`(valid, expired, permanent)`. -/
def statsFold (nowMs : Nat) (acc : Nat × Nat × Nat) (l : License) : Nat × Nat × Nat :=
  if l.isPermanent then (acc.1 + 1, acc.2.1, acc.2.2 + 1)
  else if expiryMs l > nowMs then (acc.1 + 1, acc.2.1, acc.2.2)
  else (acc.1, acc.2.1 + 1, acc.2.2)

/-- `getStats()` on the raw store. -/
def getStats (st : Store) (nowMs : Nat) : Stats :=
  let all := objValues st
  let c := all.foldl (statsFold nowMs) (0, 0, 0)
  ⟨all.length, c.1, c.2.1, c.2.2⟩

/-- `getStats()` as a method (read-only). -/
def getStatsS (s : MState) (nowMs : Nat) : Stats × MState :=
  (getStats s.licenses nowMs, s)

/-- `importJSON(jsonString)` (from the first `LicenseGenerator` class):
`none` is a failed `JSON.parse` (caught, `false`, no change); on success
the parsed object is spread over the store and persisted. -/
def importJSONS (s : MState) (data : Option Store) : Bool × MState :=
  match data with
  | none => (false, s)
  | some d => (true, saveToStorage { s with licenses := mergeObj s.licenses d })

/-- `q` matches at the head of `s`. -/
def leadMatch : List Char → List Char → Bool
  | [], _ => true
  | _ :: _, [] => false
  | a :: q, b :: s => a = b && leadMatch q s

/-- `s.includes(q)` on character lists: `q` occurs contiguously in `s`. -/
def occursIn (q : List Char) : List Char → Bool
  | [] => q.isEmpty
  | b :: s => leadMatch q (b :: s) || occursIn q s

/-- The keyword test of `search`: an empty query (falsy) accepts
everything, otherwise case-insensitive substring match on the key, the
user type or the product. -/
def queryCheck (query : String) (l : License) : Bool :=
  if query = "" then true
  else
    let q := (query.toLower).toList
    occursIn q ((l.key.toLower).toList)
      || occursIn q ((l.metadata.userType.toLower).toList)
      || occursIn q ((l.metadata.product.toLower).toList)

/-- The filter predicate of `search(query, status)`. -/
def searchPred (nowMs : Nat) (query status : String) (l : License) : Bool :=
  if status = "valid" then
    if l.isPermanent then true
    else if expiryMs l ≤ nowMs then false
    else queryCheck query l
  else if status = "expired" then
    if l.isPermanent then false
    else if expiryMs l > nowMs then false
    else queryCheck query l
  else if status = "permanent" then
    if !l.isPermanent then false
    else queryCheck query l
  else queryCheck query l

/-- `search(query, status)` on the raw store. -/
def search (st : Store) (query status : String) (nowMs : Nat) : List License :=
  (objValues st).filter (searchPred nowMs query status)

/-- `search` as a method (read-only). -/
def searchS (s : MState) (query status : String) (nowMs : Nat) :
    List License × MState :=
  (search s.licenses query status nowMs, s)

/-! ### Reachable states

The public mutating operations of the manager, with their
nondeterministic inputs (times, derived keys, parsed import payloads)
made explicit, and the states reachable by running a sequence of them on
a fresh instance. -/

/-- One public mutating call.  `importJSON`'s argument is the result of
`JSON.parse` (`none` = parse error). -/
inductive Op where
  | gen : GenOptions → Nat → String → Op
  | genBatch : GenOptions → List (Nat × String) → Op
  | revoke : String → Op
  | clearAll : Op
  | importJSON : Option Store → Op

/-- Execute one public call for its state effect. -/
def applyOp (s : MState) : Op → MState
  | .gen o nowMs key => (generateS s o nowMs key).2
  | .genBatch o oracles => (generateBatchS s o oracles).2
  | .revoke key => (revokeS s key).2
  | .clearAll => clearAllS s
  | .importJSON d => (importJSONS s d).2

/-- The state after a sequence of public calls on a fresh instance. -/
def runOps (ops : List Op) : MState :=
  ops.foldl applyOp initState

/-- Key consistency: every stored entry is indexed by its own `key`
field. -/
def KeyConsistent (st : Store) : Prop :=
  ∀ k l, objGet st k = some l → l.key = k

/-- An import payload whose every entry carries its own index as its
`key` field. -/
def payloadOK (d : Store) : Prop :=
  ∀ p ∈ (d : List (String × License)), p.2.key = p.1

/-- A public call whose import payload (if any) is key-consistent. -/
def opOK : Op → Prop
  | .importJSON (some d) => payloadOK d
  | _ => True

theorem keyConsistent_nil : KeyConsistent [] := by
  intro k l h
  simp [objGet] at h

theorem keyConsistent_objSet {st : Store} {k : String} {v : License}
    (hst : KeyConsistent st) (hv : v.key = k) : KeyConsistent (objSet st k v) := by
  intro k' l h
  rw [objGet_objSet] at h
  by_cases hk : k' = k
  · simp [hk] at h
    subst hk
    exact h ▸ hv
  · simp [hk] at h
    exact hst k' l h

theorem keyConsistent_objDelete {st : Store} {k : String}
    (hst : KeyConsistent st) : KeyConsistent (objDelete st k) := by
  intro k' l h
  rw [objGet_objDelete] at h
  by_cases hk : k' = k
  · simp [hk] at h
  · simp [hk] at h
    exact hst k' l h

theorem keyConsistent_mergeObj {d st : Store}
    (hd : payloadOK d) (hst : KeyConsistent st) : KeyConsistent (mergeObj st d) := by
  induction d generalizing st with
  | nil => exact hst
  | cons p rest ih =>
    have hrest : payloadOK rest := fun q hq => hd q (List.mem_cons_of_mem p hq)
    have hp : p.2.key = p.1 := hd p (List.mem_cons_self p rest)
    exact ih hrest (keyConsistent_objSet hst hp)

theorem generateS_key (s : MState) (o : GenOptions) (nowMs : Nat) (key : String) :
    ((generateS s o nowMs key).1).key = key := rfl

theorem keyConsistent_generateS {s : MState} (o : GenOptions) (nowMs : Nat)
    (key : String) (hs : KeyConsistent s.licenses) :
    KeyConsistent ((generateS s o nowMs key).2).licenses :=
  keyConsistent_objSet hs rfl

theorem keyConsistent_generateBatchS {s : MState} (o : GenOptions)
    (oracles : List (Nat × String)) (hs : KeyConsistent s.licenses) :
    KeyConsistent ((generateBatchS s o oracles).2).licenses := by
  induction oracles generalizing s with
  | nil => exact hs
  | cons p rest ih =>
    exact ih (keyConsistent_generateS o p.1 p.2 hs)

theorem keyConsistent_applyOp {s : MState} {op : Op}
    (hs : KeyConsistent s.licenses) (hop : opOK op) :
    KeyConsistent (applyOp s op).licenses := by
  cases op with
  | gen o nowMs key => exact keyConsistent_generateS o nowMs key hs
  | genBatch o oracles => exact keyConsistent_generateBatchS o oracles hs
  | revoke key =>
    simp only [applyOp, revokeS]
    by_cases h : containsKey s.licenses key = true
    · simp [h, saveToStorage]
      exact keyConsistent_objDelete hs
    · simp [h]
      exact hs
  | clearAll => exact keyConsistent_nil
  | importJSON d =>
    cases d with
    | none => exact hs
    | some payload => exact keyConsistent_mergeObj hop hs

theorem keyConsistent_foldl {s : MState} {ops : List Op}
    (hs : KeyConsistent s.licenses) (hops : ∀ op ∈ ops, opOK op) :
    KeyConsistent (ops.foldl applyOp s).licenses := by
  induction ops generalizing s with
  | nil => exact hs
  | cons op rest ih =>
    exact ih (keyConsistent_applyOp hs (hops op (List.mem_cons_self op rest)))
      (fun o ho => hops o (List.mem_cons_of_mem op ho))

/-! ### Claims -/

/-- C1: Register/lookup round trip: for every options record, prior state,
time and derived key, after `generate(options)` returns the license `L`,
`get(L.key)` returns exactly the license object that `generate` stored and
returned. -/
theorem c1_generate_get_roundtrip (s : MState) (o : GenOptions) (nowMs : Nat)
    (key : String) :
    (getS (generateS s o nowMs key).2 ((generateS s o nowMs key).1).key).1
      = some (generateS s o nowMs key).1 := by
  simp [getS, generateS, saveToStorage, objGet_objSet]

/-- The pre-existing entry of the C2 counterexample, stored at key "K". -/
def c2OldLicense : License :=
  ⟨"K", 5, some 99, 7, "days", false, ⟨"用户", "Arixa"⟩⟩

/-- A state whose store already holds key "K". -/
def c2State : MState := ⟨[("K", c2OldLicense)], none⟩

/-- C2 counterexample: when the derived key "K" already exists, `generate`
does not fail and does not leave the existing entry unchanged — the stored
entry at "K" is no longer the old license. -/
theorem c2_counterexample :
    objGet ((generateS c2State defaultGenOptions 0 "K").2).licenses "K"
      ≠ some c2OldLicense := by
  decide

/-- C2 amended: `generate` performs no duplicate check and cannot fail: it
stores the freshly built license at the derived key, silently replacing
any existing entry at that key, and leaves the entry at every other key
unchanged. -/
theorem c2_generate_overwrites (s : MState) (o : GenOptions) (nowMs : Nat)
    (key k' : String) :
    objGet ((generateS s o nowMs key).2).licenses k'
      = if k' = key then some (generateS s o nowMs key).1
        else objGet s.licenses k' := by
  simp [generateS, saveToStorage, objGet_objSet]

/-- C3: `verify(key)` reports `valid = true` exactly when the license is
in the store and is either permanent or not yet past its expiry time. -/
theorem c3_verify_valid_iff (s : MState) (key : String) (nowMs : Nat) :
    ((verifyS s key nowMs).1).valid = true ↔
      ∃ l, objGet s.licenses key = some l ∧
        (l.isPermanent = true ∨ nowMs ≤ expiryMs l) := by
  unfold verifyS verify
  cases h : objGet s.licenses key with
  | none => simp
  | some l =>
    by_cases hperm : l.isPermanent = true
    · simp [hperm]
    · by_cases hexp : nowMs > expiryMs l
      · simp only [hperm, if_neg, Bool.false_eq_true, if_false, hexp, if_pos,
          if_true, Option.some.injEq]
        constructor
        · intro hfalse
          cases hfalse
        · rintro ⟨l', rfl, hor⟩
          rcases hor with hp | hle
          · exact absurd hp hperm
          · omega
      · simp only [hperm, Bool.false_eq_true, if_false, hexp, if_true]
        constructor
        · intro _
          exact ⟨l, rfl, Or.inr (by omega)⟩
        · intro _
          trivial

/-- C4: a key absent from the store resolves entirely at lookup: `verify`
returns the not-found result (valid = false, the not-found reason, no
license field) without changing any state, and `get` returns null without
changing any state. -/
theorem c4_unknown_key_fails_fast (s : MState) (key : String) (nowMs : Nat)
    (h : objGet s.licenses key = none) :
    verifyS s key nowMs = (⟨false, "许可证不存在", none, none, none⟩, s)
      ∧ getS s key = (none, s) := by
  constructor
  · unfold verifyS verify
    rw [h]
  · unfold getS
    rw [h]

/-- C4 witness: the not-found behaviour observed on a fresh instance at
the concrete key "ABCD". -/
theorem c4_unknown_key_witness :
    objGet initState.licenses "ABCD" = none ∧
      (verifyS initState "ABCD" 0
          = (⟨false, "许可证不存在", none, none, none⟩, initState)
        ∧ getS initState "ABCD" = (none, initState)) :=
  ⟨rfl, c4_unknown_key_fails_fast initState "ABCD" 0 rfl⟩

/-- The mis-indexed license of the C5 counterexample: imported under key
"A" while carrying key field "B". -/
def c5BadLicense : License :=
  ⟨"B", 0, none, 0, "permanent", true, ⟨"用户", "Arixa"⟩⟩

/-- C5 counterexample: the state reached from a fresh instance by the
single public call `importJSON` on the payload mapping "A" to a license
whose key field is "B" is not key-consistent. -/
theorem c5_counterexample :
    ¬ KeyConsistent (runOps [Op.importJSON (some [("A", c5BadLicense)])]).licenses := by
  intro h
  have hA : objGet (runOps [Op.importJSON (some [("A", c5BadLicense)])]).licenses "A"
      = some c5BadLicense := by decide
  exact absurd (h "A" c5BadLicense hA) (by decide)

/-- C5 amended: in every state reachable by the public operations
(`generate`, `generateBatch`, `revoke`, `clearAll`, `importJSON`) from a
fresh instance, each stored entry is indexed by exactly its own key field
— provided every successfully imported payload itself maps each key to a
license carrying that key (without that proviso `importJSON` can break
the invariant). -/
theorem c5_key_consistency_reachable (ops : List Op)
    (hops : ∀ op ∈ ops, opOK op) :
    KeyConsistent (runOps ops).licenses :=
  keyConsistent_foldl keyConsistent_nil hops

/-- C5 witness: key consistency of the state reached by a concrete
generate-then-revoke trace. -/
theorem c5_key_consistency_witness :
    (∀ op ∈ [Op.gen defaultGenOptions 0 "K", Op.revoke "Q"], opOK op) ∧
      KeyConsistent (runOps [Op.gen defaultGenOptions 0 "K", Op.revoke "Q"]).licenses := by
  have hops : ∀ op ∈ [Op.gen defaultGenOptions 0 "K", Op.revoke "Q"], opOK op := by
    intro op hop
    rcases List.mem_cons.mp hop with h | hop
    · subst h; trivial
    rcases List.mem_cons.mp hop with h | hop
    · subst h; trivial
    · cases hop
  exact ⟨hops, c5_key_consistency_reachable _ hops⟩

/-- C6: validation is pure: `verify` leaves the in-memory store and the
persisted storage exactly as they were before the call. -/
theorem c6_verify_pure (s : MState) (key : String) (nowMs : Nat) :
    (verifyS s key nowMs).2 = s := rfl

/-- C7 counterexample: the registry is not append-only: after `generate`
stores a license at key "K", the public call `revoke("K")` removes it. -/
theorem c7_counterexample :
    containsKey ((generateS initState defaultGenOptions 0 "K").2).licenses "K" = true
      ∧ containsKey
          ((revokeS (generateS initState defaultGenOptions 0 "K").2 "K").2).licenses "K"
        = false := by
  decide

/-- C7 amended: the store supports removal: after `revoke(key)` the key is
absent from the store (whether or not it was present), and `clearAll`
leaves the store empty. -/
theorem c7_removal_operations (s : MState) (key : String) :
    objGet ((revokeS s key).2).licenses key = none
      ∧ (clearAllS s).licenses = [] := by
  constructor
  · unfold revokeS
    by_cases h : containsKey s.licenses key = true
    · simp [h, saveToStorage, objGet_objDelete]
    · have hnone : objGet s.licenses key = none := by
        cases heq : objGet s.licenses key with
        | none => rfl
        | some l => exact absurd (by simp [containsKey, heq]) h
      simp [h, hnone]
  · rfl

/-- C8: `revoke` is exact: it returns exactly the presence of the key,
the resulting store answers every lookup as the old store with that one
key removed, and when the key is absent the state is literally
unchanged. -/
theorem c8_revoke_exact (s : MState) (key : String) :
    (revokeS s key).1 = containsKey s.licenses key
      ∧ (∀ k', objGet ((revokeS s key).2).licenses k'
          = if k' = key then none else objGet s.licenses k')
      ∧ (containsKey s.licenses key = false → (revokeS s key).2 = s) := by
  by_cases h : containsKey s.licenses key = true
  · refine ⟨by simp [revokeS, h], fun k' => ?_, fun hfalse => ?_⟩
    · simp [revokeS, h, saveToStorage, objGet_objDelete]
    · rw [h] at hfalse
      cases hfalse
  · have hnone : objGet s.licenses key = none := by
      cases heq : objGet s.licenses key with
      | none => rfl
      | some l => exact absurd (by simp [containsKey, heq]) h
    refine ⟨?_, fun k' => ?_, fun _ => by simp [revokeS, h]⟩
    · simp [revokeS, h, containsKey, hnone]
    · by_cases hk : k' = key
      · subst hk
        simp [revokeS, h, hnone]
      · simp [revokeS, h, hk]

/-- C8 witness: `revoke` of an absent key on a fresh instance reports
`false` and changes nothing. -/
theorem c8_revoke_witness :
    (revokeS initState "K").1 = containsKey initState.licenses "K"
      ∧ (revokeS initState "K").2 = initState := by
  have h := c8_revoke_exact initState "K"
  exact ⟨h.1, h.2.2 rfl⟩

theorem statsFold_sum (nowMs : Nat) (L : List License) (a b c : Nat) :
    (L.foldl (statsFold nowMs) (a, b, c)).1
        + (L.foldl (statsFold nowMs) (a, b, c)).2.1
      = a + b + L.length := by
  induction L generalizing a b c with
  | nil => simp
  | cons l t ih =>
    simp only [List.foldl_cons, statsFold, List.length_cons]
    by_cases h1 : l.isPermanent = true
    · rw [if_pos h1, ih]
      omega
    · rw [if_neg h1]
      by_cases h2 : expiryMs l > nowMs
      · rw [if_pos h2, ih]
        omega
      · rw [if_neg h2, ih]
        omega

theorem statsFold_perm_le (nowMs : Nat) (L : List License) (a b c : Nat)
    (h : c ≤ a) :
    (L.foldl (statsFold nowMs) (a, b, c)).2.2
      ≤ (L.foldl (statsFold nowMs) (a, b, c)).1 := by
  induction L generalizing a b c with
  | nil => simpa using h
  | cons l t ih =>
    simp only [List.foldl_cons, statsFold]
    by_cases h1 : l.isPermanent = true
    · rw [if_pos h1]
      exact ih _ _ _ (by omega)
    · rw [if_neg h1]
      by_cases h2 : expiryMs l > nowMs
      · rw [if_pos h2]
        exact ih _ _ _ (by omega)
      · rw [if_neg h2]
        exact ih _ _ _ h

/-- C9: `getStats` partitions the store: the total equals the number of
stored licenses, the total equals valid plus expired, and every permanent
license is counted among the valid ones. -/
theorem c9_getStats_partition (s : MState) (nowMs : Nat) :
    ((getStatsS s nowMs).1).total = ((getAllS s).1).length
      ∧ ((getStatsS s nowMs).1).total
          = ((getStatsS s nowMs).1).valid + ((getStatsS s nowMs).1).expired
      ∧ ((getStatsS s nowMs).1).permanent ≤ ((getStatsS s nowMs).1).valid := by
  refine ⟨rfl, ?_, ?_⟩
  · have h := statsFold_sum nowMs (objValues s.licenses) 0 0 0
    simp only [getStatsS, getStats]
    omega
  · have h := statsFold_perm_le nowMs (objValues s.licenses) 0 0 0 (le_refl 0)
    simpa only [getStatsS, getStats] using h

/-- C10: search identity: with the empty query and status filter "all",
`search` returns exactly the full list of stored licenses, the same list
as `getAll()`. -/
theorem c10_search_identity (s : MState) (nowMs : Nat) :
    (searchS s "" "all" nowMs).1 = (getAllS s).1 := by
  have hpred : ∀ l, searchPred nowMs "" "all" l = true := by
    intro l
    unfold searchPred
    rw [if_neg (by decide), if_neg (by decide), if_neg (by decide)]
    unfold queryCheck
    rw [if_pos rfl]
  simp only [searchS, search, getAllS]
  exact List.filter_eq_self.mpr fun l _ => hpred l

end Arixa
